import Mathlib

/-
Verification of the cap-table financial engine
(src/utils/financial-engine.ts together with src/types/financial.ts).

Modelling conventions for the shallow embedding:
* JavaScript numbers are modelled as exact rationals (ℚ).  `Math.round x`
  is `⌊x + 1/2⌋` (JS rounds half toward +∞), `Number.prototype.toFixed(2)`
  followed by `parseFloat` rounds `|x|` half up to two decimals and
  re-attaches the sign.
* Optional numeric fields (`valuationCap?`, `discount?`, …) are `Option ℚ`;
  a JS truthiness test on such a field succeeds exactly when the field is
  present and non-zero.
* `round.pricedTerms!`/`round.safeTerms!` on an absent object throws a
  TypeError at the following property access; this is modelled by the
  explicit error `EngineError.missingTerms`.  Reading the absent
  `preMoneyValuation` with `!` yields `undefined` and poisons every later
  arithmetic result with NaN; since ℚ has no NaN this garbage outcome is
  modelled by the explicit error `EngineError.nanPreMoney`.
* Division is the total division of ℚ (`x / 0 = 0`); all concrete runs and
  theorem hypotheses below keep denominators non-zero, matching the
  NaN-free executions of the source.
* `Date` fields, which the engine never reads, are omitted.
-/

/-- JS `Math.round`: round half toward +∞ (written with `Rat.floor`, which
evaluates by reduction; `jsRound_eq_floor` below restates it with `⌊·⌋`). -/
def jsRound (q : ℚ) : ℚ := ((Rat.floor (q + 1/2) : ℤ) : ℚ)

/-- JS `parseFloat(x.toFixed(2))`: round the absolute value half up to two
decimal places and re-attach the sign. -/
def toFixed2 (q : ℚ) : ℚ :=
  if q < 0 then -(((Rat.floor ((-q) * 100 + 1/2) : ℤ) : ℚ) / 100)
  else ((Rat.floor (q * 100 + 1/2) : ℤ) : ℚ) / 100

/-- JS truthiness of an optional numeric field: present and non-zero.
Returns the contained value when truthy. -/
def truthyVal (o : Option ℚ) : Option ℚ :=
  match o with
  | none => none
  | some x => if x = 0 then none else some x

/-- `investors[investors.length - 1]?.sharePrice || 1.0`: the last element's
`sharePrice` when the list is non-empty and the field is present and
truthy, else the fallback `1.0`. -/
def lastSharePriceOr1 (sharePrices : List (Option ℚ)) : ℚ :=
  match sharePrices.getLast? with
  | some (some p) => if p = 0 then 1 else p
  | some none => 1
  | none => 1

/-! ## Data model (src/types/financial.ts) -/

structure Founder where
  id : String
  name : String
  initialEquity : ℚ
  currentEquity : ℚ
  shares : ℚ
deriving DecidableEq

structure ESOPPool where
  id : String
  percentage : ℚ
  shares : ℚ
  isPreMoney : Bool
deriving DecidableEq

structure SAFETerms where
  valuationCap : Option ℚ
  discount : Option ℚ
deriving DecidableEq

structure PricedRoundTerms where
  preMoneyValuation : Option ℚ
  postMoneyValuation : Option ℚ
  sharePrice : ℚ
deriving DecidableEq

structure ESOPAdjustment where
  newPoolPercentage : ℚ
  isPreMoney : Bool
deriving DecidableEq

structure FounderSecondary where
  founderId : String
  sharesSold : ℚ
  salePrice : ℚ
deriving DecidableEq

inductive RoundType where
  | PRICED
  | SAFE
deriving DecidableEq

structure FundingRound where
  id : String
  name : String
  type : RoundType
  capitalRaised : ℚ
  safeTerms : Option SAFETerms
  pricedTerms : Option PricedRoundTerms
  esopAdjustment : Option ESOPAdjustment
  founderSecondary : Option FounderSecondary
deriving DecidableEq

structure FounderShare where
  id : String
  name : String
  shares : ℚ
  percentage : ℚ
deriving DecidableEq

structure ESOPState where
  shares : ℚ
  percentage : ℚ
deriving DecidableEq

/-- Investor entries of a cap-table state.  The TS interface does not
declare `sharePrice`, but the engine stores it on every primary investor it
creates and reads it back (`investors[last]?.sharePrice`), so runtime
investor objects carry it optionally. -/
structure InvestorShare where
  id : String
  name : String
  shares : ℚ
  percentage : ℚ
  investmentAmount : ℚ
  sharePrice : Option ℚ
deriving DecidableEq

structure CapTableState where
  totalShares : ℚ
  founders : List FounderShare
  esop : ESOPState
  investors : List InvestorShare
deriving DecidableEq

structure Scenario where
  id : String
  name : String
  founders : List Founder
  esopPools : List ESOPPool
  rounds : List FundingRound
  totalShares : ℚ
deriving DecidableEq

structure RoundCalculationResult where
  preRoundState : CapTableState
  postRoundState : CapTableState
  newShares : ℚ
  sharePrice : ℚ
  preMoney : ℚ
  postMoney : ℚ
deriving DecidableEq

/-- Failure modes of the engine.
`initialEquityNot100` models `throw new Error('Initial equity must sum to 100%')`;
`safeNeedsCapOrDiscount` models the explicit SAFE-terms throw;
`missingTerms` models the TypeError raised by reading a property of
`undefined` after `round.pricedTerms!`/`round.safeTerms!`;
`nanPreMoney` models the NaN-poisoned garbage state produced when a priced
round has no `preMoneyValuation` (see header). -/
inductive EngineError where
  | initialEquityNot100
  | safeNeedsCapOrDiscount
  | missingTerms
  | nanPreMoney
deriving DecidableEq

deriving instance DecidableEq for Except

/-! ## FinancialEngine.createInitialState -/

def INITIAL_SHARES : ℚ := 10000000

def createInitialState (founders : List Founder) (esopPools : List ESOPPool) :
    Except EngineError CapTableState :=
  let totalEquityPercent :=
    (founders.map (·.initialEquity)).sum + (esopPools.map (·.percentage)).sum
  if 1/20 < |totalEquityPercent - 100| then
    .error .initialEquityNot100
  else
    let totalShares := INITIAL_SHARES
    let esopShares :=
      (esopPools.map (fun pool => jsRound (pool.percentage / 100 * totalShares))).sum
    .ok
      { totalShares := totalShares
        founders := founders.map (fun founder =>
          { id := founder.id
            name := founder.name
            shares := jsRound (founder.initialEquity / 100 * totalShares)
            percentage := founder.initialEquity })
        esop :=
          { shares := esopShares
            percentage := (esopPools.map (·.percentage)).sum }
        investors := [] }

/-! ## FinancialEngine.processRound, split into its sequential blocks -/

/-- Step 1: pre-money ESOP adjustment (dilutes existing shareholders). -/
def esopPreMoneyStep (s : CapTableState) (r : FundingRound) : CapTableState :=
  match r.esopAdjustment with
  | none => s
  | some adj =>
    if adj.isPreMoney then
      let targetESOPPercent := adj.newPoolPercentage
      let existingNonESOPShares := s.totalShares - s.esop.shares
      let newTotalSharesPreMoney := existingNonESOPShares / (1 - targetESOPPercent / 100)
      let sharesToAddToESOP := newTotalSharesPreMoney - s.totalShares
      let totalShares' := jsRound newTotalSharesPreMoney
      let esopShares' := s.esop.shares + jsRound sharesToAddToESOP
      { s with
        totalShares := totalShares'
        esop := { s.esop with shares := esopShares' }
        founders := s.founders.map (fun f =>
          { f with shares := jsRound (f.shares / existingNonESOPShares * (totalShares' - esopShares')) }) }
    else s

/-- Replace the first list element satisfying `p` (the object returned by
JS `Array.prototype.find`, which the source then mutates in place). -/
def updateFirst (p : α → Bool) (g : α → α) : List α → List α
  | [] => []
  | x :: xs => if p x then g x :: xs else x :: updateFirst p g xs

/-- Step 2: founder secondary sale; returns the updated state together with
the pending secondary investor entry (pushed only at step 6). -/
def secondaryStep (s : CapTableState) (r : FundingRound) :
    CapTableState × Option InvestorShare :=
  match r.founderSecondary with
  | none => (s, none)
  | some sec =>
    match s.founders.find? (fun f => f.id == sec.founderId) with
    | none => (s, none)
    | some founder =>
      let founders' := updateFirst (fun f => f.id == sec.founderId)
        (fun f => { f with shares := f.shares - sec.sharesSold }) s.founders
      ({ s with founders := founders' },
       some
         { id := "investor-secondary-" ++ sec.founderId
           name := founder.name ++ " Secondary Sale"
           shares := sec.sharesSold
           percentage := 0
           investmentAmount := sec.sharesSold * sec.salePrice
           sharePrice := none })

/-- `preRoundState.investors[preRoundState.investors.length - 1]?.sharePrice || 1.0`. -/
def assumedPricedRoundPrice (preRoundState : CapTableState) : ℚ :=
  lastSharePriceOr1 (preRoundState.investors.map (·.sharePrice))

/-- Step 3: determine `(sharePrice, newShares, preMoney)` from the round
type.  `preMoneyShares` is the working total after step 1. -/
def pricingStep (preRoundState : CapTableState) (preMoneyShares : ℚ)
    (r : FundingRound) : Except EngineError (ℚ × ℚ × ℚ) :=
  match r.type with
  | .PRICED =>
    match r.pricedTerms with
    | none => .error .missingTerms
    | some terms =>
      match terms.preMoneyValuation with
      | none => .error .nanPreMoney
      | some preMoney =>
        let sharePrice := preMoney / preMoneyShares
        let newShares := jsRound (r.capitalRaised / sharePrice)
        .ok (sharePrice, newShares, preMoney)
  | .SAFE =>
    match r.safeTerms with
    | none => .error .missingTerms
    | some safeTerms =>
      let refPrice := assumedPricedRoundPrice preRoundState
      match truthyVal safeTerms.valuationCap, truthyVal safeTerms.discount with
      | some cap, some discount =>
        let sharePrice := min (cap / preMoneyShares) (refPrice * (1 - discount / 100))
        .ok (sharePrice, jsRound (r.capitalRaised / sharePrice), sharePrice * preMoneyShares)
      | some cap, none =>
        let sharePrice := cap / preMoneyShares
        .ok (sharePrice, jsRound (r.capitalRaised / sharePrice), sharePrice * preMoneyShares)
      | none, some discount =>
        let sharePrice := refPrice * (1 - discount / 100)
        .ok (sharePrice, jsRound (r.capitalRaised / sharePrice), sharePrice * preMoneyShares)
      | none, none => .error .safeNeedsCapOrDiscount

/-- Step 7: recompute every percentage from the final total share count. -/
def renormalizeStep (s : CapTableState) : CapTableState :=
  { s with
    founders := s.founders.map (fun f =>
      { f with percentage := f.shares / s.totalShares * 100 })
    investors := s.investors.map (fun i =>
      { i with percentage := i.shares / s.totalShares * 100 })
    esop := { s.esop with percentage := s.esop.shares / s.totalShares * 100 } }

def sumPercentages (s : CapTableState) : ℚ :=
  (s.founders.map (·.percentage)).sum + (s.investors.map (·.percentage)).sum +
    s.esop.percentage

/-- The percentages of `founders.concat(investors, esop)`, in that order. -/
def percList (s : CapTableState) : List ℚ :=
  s.founders.map (·.percentage) ++ s.investors.map (·.percentage) ++ [s.esop.percentage]

/-- The accumulator pass of `Array.prototype.reduce` with
`(max, current) => current.percentage > max.percentage ? current : max`,
carrying the index of the chosen element. -/
def reduceLargestAux : List ℚ → Nat × ℚ → Nat → Nat × ℚ
  | [], acc, _ => acc
  | q :: rest, (j, m), i =>
    reduceLargestAux rest (if m < q then (i, q) else (j, m)) (i + 1)

/-- Index (in `percList`) of the stakeholder selected by the source's
`reduce` call: the first one holding the largest percentage. -/
def largestIdx : List ℚ → Nat
  | [] => 0
  | p :: rest => (reduceLargestAux rest (0, p) 1).1

def modifyAt (g : α → α) : Nat → List α → List α
  | _, [] => []
  | 0, x :: xs => g x :: xs
  | n + 1, x :: xs => x :: modifyAt g n xs

/-- Add `a` to the percentage of the stakeholder at position `k` of
`founders.concat(investors, esop)` (the in-place mutation through the
reference returned by `reduce`). -/
def addPercentAt (s : CapTableState) (k : Nat) (a : ℚ) : CapTableState :=
  if k < s.founders.length then
    { s with founders := modifyAt (fun f => { f with percentage := f.percentage + a }) k s.founders }
  else if k < s.founders.length + s.investors.length then
    let investors' := modifyAt (fun i => { i with percentage := i.percentage + a })
      (k - s.founders.length) s.investors
    { s with investors := investors' }
  else
    { s with esop := { s.esop with percentage := s.esop.percentage + a } }

/-- Final rounding of every percentage to two decimal places. -/
def roundAllPercentages (s : CapTableState) : CapTableState :=
  { s with
    founders := s.founders.map (fun f => { f with percentage := toFixed2 f.percentage })
    investors := s.investors.map (fun i => { i with percentage := toFixed2 i.percentage })
    esop := { s.esop with percentage := toFixed2 s.esop.percentage } }

/-- Step 8: reconciliation of the percentage sum, then display rounding. -/
def reconcileStep (s : CapTableState) : CapTableState :=
  let totalPercentage := sumPercentages s
  let adjustment := toFixed2 (100 - totalPercentage)
  let s' := if 1/200 < |adjustment| then addPercentAt s (largestIdx (percList s)) adjustment else s
  roundAllPercentages s'

/-- Steps 4–6: add the primary raise to the total, apply the (pre- or
post-money) ESOP target to the final total, then push the primary and
pending secondary investor entries. -/
def applyRaiseStep (s2 : CapTableState) (r : FundingRound)
    (sharePrice newShares : ℚ) (secondaryInvestor : Option InvestorShare) :
    CapTableState :=
  let totalShares' := s2.totalShares + newShares
  let esopShares' :=
    match r.esopAdjustment with
    | some adj => jsRound (adj.newPoolPercentage / 100 * totalShares')
    | none => s2.esop.shares
  let s5 : CapTableState :=
    { s2 with totalShares := totalShares', esop := { s2.esop with shares := esopShares' } }
  let s6 :=
    if 0 < newShares then
      { s5 with investors := s5.investors ++
          [{ id := "investor-" ++ r.id
             name := r.name ++ " Investor"
             shares := newShares
             percentage := 0
             investmentAmount := r.capitalRaised
             sharePrice := some sharePrice }] }
    else s5
  match secondaryInvestor with
  | some si => { s6 with investors := s6.investors ++ [si] }
  | none => s6

def mkRoundResult (preRoundState postRoundState : CapTableState)
    (sharePrice newShares preMoney capitalRaised : ℚ) : RoundCalculationResult :=
  { preRoundState := preRoundState
    postRoundState := postRoundState
    newShares := newShares
    sharePrice := sharePrice
    preMoney := preMoney
    postMoney := preMoney + capitalRaised }

/-- Steps 3–8 of `processRound`: everything after the two state-rewriting
riders.  `s2` is the working state after steps 1 and 2, `secondaryInvestor`
the pending secondary entry, `preMoneyShares` the total after step 1. -/
def restOfRound (preRoundState s2 : CapTableState)
    (secondaryInvestor : Option InvestorShare) (preMoneyShares : ℚ)
    (r : FundingRound) : Except EngineError RoundCalculationResult :=
  match pricingStep preRoundState preMoneyShares r with
  | .error e => .error e
  | .ok (sharePrice, newShares, preMoney) =>
    .ok (mkRoundResult preRoundState
      (reconcileStep (renormalizeStep (applyRaiseStep s2 r sharePrice newShares secondaryInvestor)))
      sharePrice newShares preMoney r.capitalRaised)

/-- `FinancialEngine.processRound` (the working state is a deep copy of
`preRoundState`, hence plain value passing). -/
def processRound (preRoundState : CapTableState) (r : FundingRound) :
    Except EngineError RoundCalculationResult :=
  let s1 := esopPreMoneyStep preRoundState r
  let preMoneyShares := s1.totalShares
  let stepped := secondaryStep s1 r
  restOfRound preRoundState stepped.1 stepped.2 preMoneyShares r

/-- `FinancialEngine.calculateCapTable`'s round loop: one state pushed per
round, errors propagate. -/
def foldRounds (s : CapTableState) : List FundingRound →
    Except EngineError (List CapTableState)
  | [] => .ok []
  | r :: rs =>
    match processRound s r with
    | .error e => .error e
    | .ok result =>
      match foldRounds result.postRoundState rs with
      | .error e => .error e
      | .ok states => .ok (result.postRoundState :: states)

/-- `FinancialEngine.calculateCapTable`: the initial state followed by the
state after each round. -/
def calculateCapTable (scenario : Scenario) : Except EngineError (List CapTableState) :=
  match createInitialState scenario.founders scenario.esopPools with
  | .error e => .error e
  | .ok s0 =>
    match foldRounds s0 scenario.rounds with
    | .error e => .error e
    | .ok states => .ok (s0 :: states)

/-- `FinancialEngine.validateScenario`. -/
def validateScenario (scenario : Scenario) : List String :=
  (if scenario.founders.length = 0 then ["At least one founder is required"] else []) ++
  (if 6 < scenario.founders.length then ["Maximum 6 founders allowed"] else []) ++
  (let totalEquity := (scenario.founders.map (·.initialEquity)).sum +
      (scenario.esopPools.map (·.percentage)).sum
   if 1/20 < |totalEquity - 100| then ["Total equity must sum to 100%"] else []) ++
  (scenario.founders.filterMap (fun founder =>
    if founder.initialEquity < 0 then some (founder.name ++ " cannot have negative equity")
    else none)) ++
  (scenario.rounds.enum.map (fun ir =>
    (if ir.2.capitalRaised ≤ 0 then
      ["Round " ++ toString (ir.1 + 1) ++ ": Capital raised must be positive"] else []) ++
    (match ir.2.type, ir.2.pricedTerms with
     | .PRICED, some terms =>
       match truthyVal terms.preMoneyValuation with
       | some pm => if pm ≤ 0 then
           ["Round " ++ toString (ir.1 + 1) ++ ": Pre-money valuation must be positive"] else []
       | none => []
     | _, _ => []) ++
    (match ir.2.type with
     | .SAFE =>
       match ir.2.safeTerms with
       | none => ["Round " ++ toString (ir.1 + 1) ++ ": SAFE must have either a valuation cap or a discount"]
       | some st =>
         match truthyVal st.valuationCap, truthyVal st.discount with
         | none, none => ["Round " ++ toString (ir.1 + 1) ++ ": SAFE must have either a valuation cap or a discount"]
         | _, _ => []
     | .PRICED => []))).flatten

/-! ## Spec-side definitions used to state the claims -/

/-- The rider order asserted by the specification (secondary sale first,
then pre-money pool resize, then the common tail of the round), for
comparison with `processRound`, which performs the pool resize first. -/
def processRoundSecondaryFirst (preRoundState : CapTableState) (r : FundingRound) :
    Except EngineError RoundCalculationResult :=
  let stepped := secondaryStep preRoundState r
  let s2 := esopPreMoneyStep stepped.1 r
  restOfRound preRoundState s2 stepped.2 s2.totalShares r

/-- Replace the `postMoneyValuation` field of a round's priced terms. -/
def setPostMoney (r : FundingRound) (x : Option ℚ) : FundingRound :=
  { r with pricedTerms := r.pricedTerms.map (fun t => { t with postMoneyValuation := x }) }

/-- Share conservation: the total equals founder shares plus pool shares
plus investor shares. -/
def conserves (s : CapTableState) : Prop :=
  s.totalShares =
    (s.founders.map (·.shares)).sum + s.esop.shares + (s.investors.map (·.shares)).sum

/-- `k` is the position of the first occurrence of the maximum of `ps`. -/
def isLeftmostMax (ps : List ℚ) (k : Nat) : Prop :=
  k < ps.length ∧ (∀ j, j < ps.length → ps.getD j 0 ≤ ps.getD k 0) ∧
    (∀ j, j < k → ps.getD j 0 < ps.getD k 0)

/-! ## Arithmetic helper lemmas -/

theorem jsRound_eq_floor (q : ℚ) : jsRound q = ((⌊q + 1/2⌋ : ℤ) : ℚ) := by
  rw [jsRound, Rat.floor_def, Rat.floor_def']

theorem jsRound_intCast (n : ℤ) : jsRound ((n : ℤ) : ℚ) = (n : ℚ) := by
  rw [jsRound_eq_floor]
  norm_num

theorem jsRound_add_intCast (q : ℚ) (n : ℤ) : jsRound (q + (n : ℚ)) = jsRound q + (n : ℚ) := by
  rw [jsRound_eq_floor, jsRound_eq_floor]
  have h : q + (n : ℚ) + 1/2 = q + 1/2 + (n : ℚ) := by ring
  rw [h, Int.floor_add_int]
  push_cast
  ring

theorem jsRound_sub_intCast (q : ℚ) (n : ℤ) : jsRound (q - (n : ℚ)) = jsRound q - (n : ℚ) := by
  have h := jsRound_add_intCast q (-n)
  push_cast at h
  rw [sub_eq_add_neg, h, sub_eq_add_neg]

/-! ## List helper lemmas -/

theorem updateFirst_of_find?_none (p : α → Bool) (g : α → α) :
    ∀ l : List α, l.find? p = none → updateFirst p g l = l := by
  intro l
  induction l with
  | nil => intro _; rfl
  | cons x xs ih =>
    intro h
    cases hpx : p x with
    | true => simp [List.find?_cons, hpx] at h
    | false =>
      simp only [List.find?_cons, hpx] at h
      simp [updateFirst, hpx, ih h]

theorem updateFirst_map_sum (p : FounderShare → Bool) (g : FounderShare → FounderShare)
    (h : FounderShare → ℚ) :
    ∀ (l : List FounderShare) (f : FounderShare), l.find? p = some f →
      ((updateFirst p g l).map h).sum = (l.map h).sum - h f + h (g f) := by
  intro l
  induction l with
  | nil => intro f hf; simp [List.find?] at hf
  | cons x xs ih =>
    intro f hf
    cases hpx : p x with
    | true =>
      simp only [List.find?_cons, hpx, Option.some.injEq] at hf
      subst hf
      simp only [updateFirst, hpx, if_true, List.map_cons, List.sum_cons]
      ring
    | false =>
      simp only [List.find?_cons, hpx] at hf
      simp only [updateFirst, hpx, Bool.false_eq_true, if_false, List.map_cons, List.sum_cons,
        ih f hf]
      ring

theorem updateFirst_find? (p : α → Bool) (g : α → α) (hp : ∀ x, p (g x) = p x) :
    ∀ (l : List α) (f : α), l.find? p = some f →
      (updateFirst p g l).find? p = some (g f) := by
  intro l
  induction l with
  | nil => intro f hf; simp [List.find?] at hf
  | cons x xs ih =>
    intro f hf
    cases hpx : p x with
    | true =>
      simp only [List.find?_cons, hpx, Option.some.injEq] at hf
      subst hf
      simp [updateFirst, hpx, List.find?_cons, hp]
    | false =>
      simp only [List.find?_cons, hpx] at hf
      simp [updateFirst, hpx, List.find?_cons, ih f hf]

theorem updateFirst_mem (p : α → Bool) (g : α → α) :
    ∀ (l : List α) (x : α), x ∈ updateFirst p g l → x ∈ l ∨ ∃ y ∈ l, x = g y := by
  intro l
  induction l with
  | nil => intro x hx; exact absurd hx (by simp [updateFirst])
  | cons a as ih =>
    intro x hx
    rw [updateFirst] at hx
    split at hx
    · rcases List.mem_cons.mp hx with h | h
      · exact Or.inr ⟨a, List.mem_cons_self a as, h⟩
      · exact Or.inl (List.mem_cons_of_mem a h)
    · rcases List.mem_cons.mp hx with h | h
      · exact Or.inl (h ▸ List.mem_cons_self a as)
      · rcases ih x h with h' | ⟨y, hy, hxy⟩
        · exact Or.inl (List.mem_cons_of_mem a h')
        · exact Or.inr ⟨y, List.mem_cons_of_mem a hy, hxy⟩

theorem modifyAt_map (g : α → α) (h : α → β) (hg : ∀ x, h (g x) = h x) :
    ∀ (k : Nat) (l : List α), (modifyAt g k l).map h = l.map h := by
  intro k
  induction k with
  | zero =>
    intro l
    cases l with
    | nil => rfl
    | cons x xs => simp [modifyAt, hg]
  | succ n ih =>
    intro l
    cases l with
    | nil => rfl
    | cons x xs => simp [modifyAt, ih xs]

/-! ## Step lemmas -/

theorem esopPreMoneyStep_none (s : CapTableState) (r : FundingRound)
    (h : r.esopAdjustment = none) : esopPreMoneyStep s r = s := by
  unfold esopPreMoneyStep
  rw [h]

theorem processRound_eq (s : CapTableState) (r : FundingRound) :
    processRound s r =
      restOfRound s (secondaryStep (esopPreMoneyStep s r) r).1
        (secondaryStep (esopPreMoneyStep s r) r).2 (esopPreMoneyStep s r).totalShares r := rfl

theorem restOfRound_ok (pre s2 : CapTableState) (inv : Option InvestorShare)
    (pms : ℚ) (r : FundingRound) (sp ns pm : ℚ)
    (hp : pricingStep pre pms r = .ok (sp, ns, pm)) :
    restOfRound pre s2 inv pms r =
      .ok (mkRoundResult pre
        (reconcileStep (renormalizeStep (applyRaiseStep s2 r sp ns inv)))
        sp ns pm r.capitalRaised) := by
  unfold restOfRound
  rw [hp]

theorem restOfRound_error (pre s2 : CapTableState) (inv : Option InvestorShare)
    (pms : ℚ) (r : FundingRound) (e : EngineError)
    (hp : pricingStep pre pms r = .error e) :
    restOfRound pre s2 inv pms r = .error e := by
  unfold restOfRound
  rw [hp]

/-- The share data (total, per-holder share counts) that steps 7 and 8 leave
untouched: they only rewrite percentages. -/
theorem renormalizeStep_shares (s : CapTableState) :
    (renormalizeStep s).totalShares = s.totalShares ∧
    (renormalizeStep s).founders.map (·.shares) = s.founders.map (·.shares) ∧
    (renormalizeStep s).esop.shares = s.esop.shares ∧
    (renormalizeStep s).investors.map (·.shares) = s.investors.map (·.shares) := by
  refine ⟨rfl, ?_, rfl, ?_⟩ <;> simp [renormalizeStep]

theorem roundAllPercentages_shares (s : CapTableState) :
    (roundAllPercentages s).totalShares = s.totalShares ∧
    (roundAllPercentages s).founders.map (·.shares) = s.founders.map (·.shares) ∧
    (roundAllPercentages s).esop.shares = s.esop.shares ∧
    (roundAllPercentages s).investors.map (·.shares) = s.investors.map (·.shares) := by
  refine ⟨rfl, ?_, rfl, ?_⟩ <;> simp [roundAllPercentages]

theorem addPercentAt_shares (s : CapTableState) (k : Nat) (a : ℚ) :
    (addPercentAt s k a).totalShares = s.totalShares ∧
    (addPercentAt s k a).founders.map (·.shares) = s.founders.map (·.shares) ∧
    (addPercentAt s k a).esop.shares = s.esop.shares ∧
    (addPercentAt s k a).investors.map (·.shares) = s.investors.map (·.shares) := by
  unfold addPercentAt
  split
  · exact ⟨rfl, modifyAt_map (fun f => { f with percentage := f.percentage + a })
      (·.shares) (fun x => rfl) k s.founders, rfl, rfl⟩
  · split
    · exact ⟨rfl, rfl, rfl, modifyAt_map (fun i => { i with percentage := i.percentage + a })
        (·.shares) (fun x => rfl) (k - s.founders.length) s.investors⟩
    · exact ⟨rfl, rfl, rfl, rfl⟩

theorem reconcileStep_shares (s : CapTableState) :
    (reconcileStep s).totalShares = s.totalShares ∧
    (reconcileStep s).founders.map (·.shares) = s.founders.map (·.shares) ∧
    (reconcileStep s).esop.shares = s.esop.shares ∧
    (reconcileStep s).investors.map (·.shares) = s.investors.map (·.shares) := by
  unfold reconcileStep
  dsimp only
  split
  · obtain ⟨h1, h2, h3, h4⟩ := addPercentAt_shares s (largestIdx (percList s))
      (toFixed2 (100 - sumPercentages s))
    obtain ⟨g1, g2, g3, g4⟩ := roundAllPercentages_shares (addPercentAt s
      (largestIdx (percList s)) (toFixed2 (100 - sumPercentages s)))
    exact ⟨g1.trans h1, g2.trans h2, g3.trans h3, g4.trans h4⟩
  · exact roundAllPercentages_shares s

theorem conserves_of_same_shares (s t : CapTableState)
    (h1 : t.totalShares = s.totalShares)
    (h2 : t.founders.map (·.shares) = s.founders.map (·.shares))
    (h3 : t.esop.shares = s.esop.shares)
    (h4 : t.investors.map (·.shares) = s.investors.map (·.shares))
    (h : conserves s) : conserves t := by
  unfold conserves at h ⊢
  rw [h1, h2, h3, h4, h]

theorem secondaryStep_conserving (s : CapTableState) (r : FundingRound) :
    (secondaryStep s r).1.totalShares = s.totalShares ∧
    (secondaryStep s r).1.esop = s.esop ∧
    (secondaryStep s r).1.investors = s.investors ∧
    ((secondaryStep s r).1.founders.map (·.shares)).sum +
      (match (secondaryStep s r).2 with | some i => i.shares | none => 0) =
      (s.founders.map (·.shares)).sum := by
  cases hsec : r.founderSecondary with
  | none => simp [secondaryStep, hsec]
  | some sec =>
    cases hf : s.founders.find? (fun f => f.id == sec.founderId) with
    | none => simp [secondaryStep, hsec, hf]
    | some f =>
      have h := updateFirst_map_sum (fun f => f.id == sec.founderId)
        (fun f => { f with shares := f.shares - sec.sharesSold }) (·.shares) s.founders f hf
      simp only [secondaryStep, hsec, hf]
      refine ⟨trivial, trivial, trivial, ?_⟩
      simp only [h]
      ring

/-! ## The reduce-largest fold picks the first maximum -/

theorem reduceLargestAux_spec :
    ∀ (l : List ℚ) (j : Nat) (m : ℚ) (i : Nat),
      (reduceLargestAux l (j, m) i = (j, m) ∧ ∀ q ∈ l, q ≤ m) ∨
      (∃ t, t < l.length ∧
        (reduceLargestAux l (j, m) i).1 = i + t ∧
        (reduceLargestAux l (j, m) i).2 = l.getD t 0 ∧
        m < (reduceLargestAux l (j, m) i).2 ∧
        (∀ u, u < t → l.getD u 0 < (reduceLargestAux l (j, m) i).2) ∧
        (∀ u, u < l.length → l.getD u 0 ≤ (reduceLargestAux l (j, m) i).2)) := by
  intro l
  induction l with
  | nil => intro j m i; exact Or.inl ⟨rfl, by simp⟩
  | cons q rest ih =>
    intro j m i
    by_cases hmq : m < q
    · have hred : reduceLargestAux (q :: rest) (j, m) i = reduceLargestAux rest (i, q) (i + 1) := by
        simp [reduceLargestAux, hmq]
      rcases ih i q (i + 1) with ⟨heq, hle⟩ | ⟨t, ht, h1, h2, h3, h4, h5⟩
      · right
        refine ⟨0, by simp, ?_, ?_, ?_, ?_, ?_⟩
        · rw [hred, heq]
          simp
        · rw [hred, heq]
          simp
        · rw [hred, heq]; exact hmq
        · intro u hu; exact absurd hu (Nat.not_lt_zero u)
        · intro u hu
          rw [hred, heq]
          match u with
          | 0 => simp
          | v + 1 =>
            simp only [List.getD_cons_succ]
            have hv : v < rest.length := by simpa using Nat.lt_of_succ_lt_succ hu
            rw [List.getD_eq_getElem rest 0 hv]
            exact hle _ (List.getElem_mem hv)
      · right
        refine ⟨t + 1, by simpa using Nat.succ_lt_succ ht, ?_, ?_, ?_, ?_, ?_⟩
        · rw [hred, h1]; omega
        · rw [hred, h2]; rfl
        · rw [hred]; exact lt_trans hmq h3
        · intro u hu
          rw [hred]
          match u with
          | 0 => simpa using h3
          | v + 1 =>
            simp only [List.getD_cons_succ]
            exact h4 v (Nat.lt_of_succ_lt_succ hu)
        · intro u hu
          rw [hred]
          match u with
          | 0 => simpa using le_of_lt h3
          | v + 1 =>
            simp only [List.getD_cons_succ]
            exact h5 v (by simpa using Nat.lt_of_succ_lt_succ hu)
    · have hred : reduceLargestAux (q :: rest) (j, m) i = reduceLargestAux rest (j, m) (i + 1) := by
        simp [reduceLargestAux, hmq]
      rcases ih j m (i + 1) with ⟨heq, hle⟩ | ⟨t, ht, h1, h2, h3, h4, h5⟩
      · left
        constructor
        · rw [hred, heq]
        · intro x hx
          rcases List.mem_cons.mp hx with h | h
          · exact h ▸ not_lt.mp hmq
          · exact hle x h
      · right
        refine ⟨t + 1, by simpa using Nat.succ_lt_succ ht, ?_, ?_, ?_, ?_, ?_⟩
        · rw [hred, h1]; omega
        · rw [hred, h2]; rfl
        · rw [hred]; exact h3
        · intro u hu
          rw [hred]
          match u with
          | 0 => simpa using lt_of_le_of_lt (not_lt.mp hmq) h3
          | v + 1 =>
            simp only [List.getD_cons_succ]
            exact h4 v (Nat.lt_of_succ_lt_succ hu)
        · intro u hu
          rw [hred]
          match u with
          | 0 => simpa using le_of_lt (lt_of_le_of_lt (not_lt.mp hmq) h3)
          | v + 1 =>
            simp only [List.getD_cons_succ]
            exact h5 v (by simpa using Nat.lt_of_succ_lt_succ hu)

theorem largestIdx_isLeftmostMax : ∀ ps : List ℚ, ps ≠ [] → isLeftmostMax ps (largestIdx ps) := by
  intro ps hps
  match ps with
  | [] => exact absurd rfl hps
  | p :: rest =>
    rcases reduceLargestAux_spec rest 0 p 1 with ⟨heq, hle⟩ | ⟨t, ht, h1, h2, h3, h4, h5⟩
    · have hL : largestIdx (p :: rest) = 0 := by rw [largestIdx, heq]
      refine ⟨by simp [hL], ?_, ?_⟩
      · intro j hj
        rw [hL]
        match j with
        | 0 => exact le_refl _
        | v + 1 =>
          simp only [List.getD_cons_succ, List.getD_cons_zero]
          have hv : v < rest.length := by simpa using Nat.lt_of_succ_lt_succ hj
          rw [List.getD_eq_getElem rest 0 hv]
          exact hle _ (List.getElem_mem hv)
      · intro j hj
        rw [hL] at hj
        exact absurd hj (Nat.not_lt_zero j)
    · have hL : largestIdx (p :: rest) = t + 1 := by rw [largestIdx, h1]; omega
      have hget : (p :: rest).getD (t + 1) 0 = (reduceLargestAux rest (0, p) 1).2 := by
        rw [List.getD_cons_succ, h2]
      refine ⟨?_, ?_, ?_⟩
      · rw [hL]; simpa using Nat.succ_lt_succ ht
      · intro j hj
        rw [hL, hget]
        match j with
        | 0 => simpa using le_of_lt h3
        | v + 1 =>
          simp only [List.getD_cons_succ]
          exact h5 v (by simpa using Nat.lt_of_succ_lt_succ hj)
      · intro j hj
        rw [hL] at hj
        rw [hL, hget]
        match j with
        | 0 => simpa using h3
        | v + 1 =>
          simp only [List.getD_cons_succ]
          exact h4 v (Nat.lt_of_succ_lt_succ hj)

/-! ## Concrete inputs used in the theorems below -/

def mkFounder (i n : String) (eq : ℚ) : Founder :=
  { id := i, name := n, initialEquity := eq, currentEquity := eq, shares := 0 }

/-- A priced round with no optional attachments, used as a base to build
the concrete rounds below. -/
def baseRound : FundingRound :=
  { id := "r1", name := "Round 1", type := .PRICED, capitalRaised := 0,
    safeTerms := none, pricedTerms := none, esopAdjustment := none, founderSecondary := none }

/-- The initial state of a single founder holding 100% of 10,000,000 shares
(the output of `createInitialState` for one founder at 100%). -/
def oneFounderState : CapTableState :=
  { totalShares := 10000000,
    founders := [{ id := "founder-0", name := "F1", shares := 10000000, percentage := 100 }],
    esop := { shares := 0, percentage := 0 },
    investors := [] }

/-- Convertible note raising 300,000 with cap 6,000,000 and discount 25
(the spec's concrete scenario 3). -/
def capDiscountRound : FundingRound :=
  { baseRound with
    type := .SAFE
    capitalRaised := 300000
    safeTerms := some { valuationCap := some 6000000, discount := some 25 } }

def capDiscountScenario : Scenario :=
  { id := "s3", name := "Scenario 3", founders := [mkFounder "founder-0" "F1" 100],
    esopPools := [], rounds := [capDiscountRound], totalShares := 10000000 }

/-- Priced round raising 10,000,000 at 10,000,000 pre-money with a
post-money ESOP resize to 10%. -/
def postMoneyPoolRound : FundingRound :=
  { baseRound with
    capitalRaised := 10000000
    pricedTerms := some { preMoneyValuation := some 10000000, postMoneyValuation := none, sharePrice := 0 }
    esopAdjustment := some { newPoolPercentage := 10, isPreMoney := false } }

def postMoneyPoolScenario : Scenario :=
  { id := "s1", name := "Scenario 1", founders := [mkFounder "founder-0" "F1" 100],
    esopPools := [], rounds := [postMoneyPoolRound], totalShares := 10000000 }

/-- Priced round raising 5,000,000 at 10,000,000 pre-money (no riders):
after it, two founders and the investor each hold exactly one third. -/
def thirdsRound : FundingRound :=
  { baseRound with
    capitalRaised := 5000000
    pricedTerms := some { preMoneyValuation := some 10000000, postMoneyValuation := none, sharePrice := 0 } }

def thirdsScenario : Scenario :=
  { id := "s7", name := "Thirds", founders := [mkFounder "f-0" "A" 50, mkFounder "f-1" "B" 50],
    esopPools := [], rounds := [thirdsRound], totalShares := 10000000 }

/-- Priced round whose secondary sale sells more shares than the founder
holds (11,000,000 of 10,000,000). -/
def oversoldRound : FundingRound :=
  { baseRound with
    capitalRaised := 1000000
    pricedTerms := some { preMoneyValuation := some 10000000, postMoneyValuation := none, sharePrice := 0 }
    founderSecondary := some { founderId := "founder-0", sharesSold := 11000000, salePrice := 1 } }

def oversoldScenario : Scenario :=
  { id := "s5", name := "Oversold", founders := [mkFounder "founder-0" "F1" 100],
    esopPools := [], rounds := [oversoldRound], totalShares := 10000000 }

/-- A state with fractional-free total but where the secondary sale below
sells a fractional share amount, separating the two rider orders. -/
def fractionalSaleState : CapTableState :=
  { totalShares := 10,
    founders := [{ id := "founder-a", name := "A", shares := 9, percentage := 90 }],
    esop := { shares := 1, percentage := 10 },
    investors := [] }

def fractionalSaleRound : FundingRound :=
  { baseRound with
    capitalRaised := 1
    pricedTerms := some { preMoneyValuation := some 9, postMoneyValuation := none, sharePrice := 0 }
    esopAdjustment := some { newPoolPercentage := 20, isPreMoney := true }
    founderSecondary := some { founderId := "founder-a", sharesSold := 1/2, salePrice := 1 } }

/-- The same round with an integer secondary sale amount. -/
def integerSaleRound : FundingRound :=
  { baseRound with
    capitalRaised := 1000000
    pricedTerms := some { preMoneyValuation := some 9000000, postMoneyValuation := none, sharePrice := 0 }
    esopAdjustment := some { newPoolPercentage := 20, isPreMoney := true }
    founderSecondary := some { founderId := "founder-0", sharesSold := 1000000, salePrice := 1 } }

/-- Priced round that gives only a post-money valuation (5,000,000) and no
pre-money valuation. -/
def postOnlyRound : FundingRound :=
  { baseRound with
    capitalRaised := 1000000
    pricedTerms := some { preMoneyValuation := none, postMoneyValuation := some 5000000, sharePrice := 0 } }

/-- Priced round with a pre-money valuation of 4,000,000. -/
def preMoneyRound : FundingRound :=
  { baseRound with
    capitalRaised := 1000000
    pricedTerms := some { preMoneyValuation := some 4000000, postMoneyValuation := none, sharePrice := 0 } }

/-- Round whose secondary sale names a founder id absent from the state. -/
def ghostSecondaryRound : FundingRound :=
  { baseRound with
    capitalRaised := 1000000
    pricedTerms := some { preMoneyValuation := some 4000000, postMoneyValuation := none, sharePrice := 0 }
    founderSecondary := some { founderId := "ghost", sharesSold := 1000, salePrice := 2 } }

/-- A drifted state (percentage sum 90) exercising the reconciliation
adjustment: the single founder holds the largest percentage. -/
def driftedState : CapTableState :=
  { totalShares := 100,
    founders := [{ id := "f-0", name := "A", shares := 60, percentage := 60 }],
    esop := { shares := 30, percentage := 30 },
    investors := [] }

/-! ## Claim theorems -/

set_option maxRecDepth 12000 in
/-- Claim C9: on one founder at 100% with 10,000,000 shares and a
convertible note of 300,000 with cap 6,000,000 and discount 25%, the claim
(and the repository's own test) expects sharePrice 0.45, newShares 666,667
and totalShares 10,666,667; the code instead applies the discount to the
fallback reference price 1.0 (giving discountPrice 0.75, not 0.45), picks
the cap price 0.60, and produces newShares 500,000 and totalShares
10,500,000. -/
theorem safe_cap_discount_scenario_eval :
    (calculateCapTable capDiscountScenario).map (fun l => l.map (·.totalShares)) =
      .ok [10000000, 10500000] ∧
    (processRound oneFounderState capDiscountRound).map
      (fun res => (res.sharePrice, res.newShares, res.postRoundState.totalShares)) =
      .ok (3/5, 500000, 10500000) ∧
    assumedPricedRoundPrice oneFounderState * (1 - 25/100) = 3/4 := by
  refine ⟨?_, ?_, ?_⟩ <;> with_unfolding_all rfl

/-- Claim C8: within the 0.05 tolerance the initializer fixes 10,000,000
total shares, rounds each founder's and pool allocation's share count,
copies founder percentages verbatim from the input, and creates no
investors; beyond the tolerance it fails with the validation error. -/
theorem createInitialState_spec (founders : List Founder) (esopPools : List ESOPPool) :
    (|((founders.map (·.initialEquity)).sum + (esopPools.map (·.percentage)).sum) - 100| ≤ 1/20 →
      createInitialState founders esopPools = .ok
        { totalShares := 10000000
          founders := founders.map (fun f =>
            { id := f.id
              name := f.name
              shares := jsRound (f.initialEquity / 100 * 10000000)
              percentage := f.initialEquity })
          esop :=
            { shares := (esopPools.map (fun p => jsRound (p.percentage / 100 * 10000000))).sum
              percentage := (esopPools.map (·.percentage)).sum }
          investors := [] }) ∧
    (1/20 < |((founders.map (·.initialEquity)).sum + (esopPools.map (·.percentage)).sum) - 100| →
      createInitialState founders esopPools = .error .initialEquityNot100) := by
  constructor
  · intro h
    unfold createInitialState
    dsimp only
    rw [if_neg (not_lt.mpr h)]
    rfl
  · intro h
    unfold createInitialState
    dsimp only
    rw [if_pos h]

/-- Witness for C8 at two founders holding 60% and 40%. -/
theorem createInitialState_spec_witness :
    createInitialState [mkFounder "f-0" "A" 60, mkFounder "f-1" "B" 40] [] =
      .ok { totalShares := 10000000
            founders := [{ id := "f-0", name := "A", shares := 6000000, percentage := 60 },
                         { id := "f-1", name := "B", shares := 4000000, percentage := 40 }]
            esop := { shares := 0, percentage := 0 }
            investors := [] } := by
  have h := (createInitialState_spec [mkFounder "f-0" "A" 60, mkFounder "f-1" "B" 40] []).1
    (by norm_num [mkFounder])
  rw [h]
  with_unfolding_all rfl

set_option maxRecDepth 12000 in
/-- Counterexample to claim C1 as stated: a valid scenario (validation
passes) whose post-round state breaks share conservation — the post-money
pool resize sets pool shares from a target percentage without touching
`totalShares`, so the second fold state has totalShares 20,000,000 but
share sum 22,000,000. -/
theorem share_conservation_fails_on_postmoney_pool_resize :
    validateScenario postMoneyPoolScenario = [] ∧
    (calculateCapTable postMoneyPoolScenario).map (fun l => l.map (fun s =>
      (s.totalShares,
        (s.founders.map (·.shares)).sum + s.esop.shares + (s.investors.map (·.shares)).sum))) =
      .ok [(10000000, 10000000), (20000000, 22000000)] := by
  constructor <;> with_unfolding_all rfl

set_option maxRecDepth 12000 in
/-- Counterexample to claim C2 as stated: on a state with 9 founder shares,
1 pool share, total 10 and an event carrying a pre-money resize to 20%
together with a secondary sale of half a share, the engine (resize first,
then sale) leaves the founder at 8.5 shares, while the claimed order (sale
first, then resize, rescaling the post-sale count) would leave 9. -/
theorem rider_order_differs_on_fractional_sale :
    (processRound fractionalSaleState fractionalSaleRound).map
      (fun res => res.postRoundState.founders.map (·.shares)) = .ok [17/2] ∧
    (processRoundSecondaryFirst fractionalSaleState fractionalSaleRound).map
      (fun res => res.postRoundState.founders.map (·.shares)) = .ok [9] := by
  constructor <;> with_unfolding_all rfl

/-- Counterexample to claim C4 as stated: a priced round giving only a
post-money valuation of 5,000,000 (capital 1,000,000) does not convert it
to a 4,000,000 pre-money; the engine reads the absent `preMoneyValuation`
and the computation degenerates (NaN-poisoned, modelled as an error). -/
theorem postmoney_only_round_degenerates :
    processRound oneFounderState postOnlyRound = .error .nanPreMoney := by
  with_unfolding_all rfl

set_option maxRecDepth 12000 in
/-- Counterexample to claim C5 as stated: a secondary sale of 11,000,000
shares by a founder holding 10,000,000 drives the founder's share count to
-1,000,000 — there is no clamping at zero. -/
theorem secondary_sale_not_clamped :
    (calculateCapTable oversoldScenario).map (fun l => l.map (fun s =>
      s.founders.map (·.shares))) = .ok [[10000000], [-1000000]] := by
  with_unfolding_all rfl

set_option maxRecDepth 12000 in
/-- Counterexample to claim C7 as stated: two founders at 50% plus a
5,000,000 raise at 10,000,000 pre-money give three stakeholders of exactly
one third each; no reconciliation triggers and each percentage displays as
33.33, so the displayed sum is 99.99, not 100.00. -/
theorem displayed_percentages_sum_not_100 :
    (calculateCapTable thirdsScenario).map (fun l => l.map sumPercentages) =
      .ok [100, 9999/100] := by
  with_unfolding_all rfl

theorem esopPreMoneyStep_find?_none (s : CapTableState) (r : FundingRound) (c : String)
    (h : s.founders.find? (fun f => f.id == c) = none) :
    (esopPreMoneyStep s r).founders.find? (fun f => f.id == c) = none := by
  unfold esopPreMoneyStep
  cases r.esopAdjustment with
  | none => exact h
  | some adj =>
    by_cases hpre : adj.isPreMoney = true
    · simp only [if_pos hpre]
      rw [List.find?_map]
      have hc : (fun (f : FounderShare) => f.id == c) ∘
          (fun (f : FounderShare) => { f with shares := jsRound (f.shares / (s.totalShares - s.esop.shares) *
            (jsRound ((s.totalShares - s.esop.shares) / (1 - adj.newPoolPercentage / 100)) -
              (s.esop.shares + jsRound ((s.totalShares - s.esop.shares) /
                (1 - adj.newPoolPercentage / 100) - s.totalShares)))) }) =
          (fun f => f.id == c) := rfl
      rw [hc, h]
      rfl
    · simp only [if_neg hpre]
      exact h

/-- Claim C10: a secondary sale naming an unknown founder id is silently
skipped — no error, no share change, no secondary investor entry; the
round proceeds exactly as if the event carried no secondary sale. -/
theorem unknown_founder_secondary_skipped (s : CapTableState) (r : FundingRound)
    (sec : FounderSecondary) (hsec : r.founderSecondary = some sec)
    (hfind : s.founders.find? (fun f => f.id == sec.founderId) = none) :
    processRound s r = processRound s { r with founderSecondary := none } := by
  rw [processRound_eq, processRound_eq]
  have h1 : esopPreMoneyStep s { r with founderSecondary := none } = esopPreMoneyStep s r := rfl
  rw [h1]
  have hfind1 : (esopPreMoneyStep s r).founders.find? (fun f => f.id == sec.founderId) = none :=
    esopPreMoneyStep_find?_none s r sec.founderId hfind
  have h2 : secondaryStep (esopPreMoneyStep s r) r = (esopPreMoneyStep s r, none) := by
    simp [secondaryStep, hsec, hfind1]
  have h3 : secondaryStep (esopPreMoneyStep s r) { r with founderSecondary := none } =
      (esopPreMoneyStep s r, none) := rfl
  rw [h2, h3]
  rfl

/-- Witness for C10: a secondary sale naming `"ghost"` in the one-founder
state behaves exactly like the same round without the sale. -/
theorem unknown_founder_secondary_skipped_witness :
    processRound oneFounderState ghostSecondaryRound =
      processRound oneFounderState { ghostSecondaryRound with founderSecondary := none } :=
  unknown_founder_secondary_skipped oneFounderState ghostSecondaryRound
    { founderId := "ghost", sharesSold := 1000, salePrice := 2 }
    (by with_unfolding_all rfl) (by with_unfolding_all rfl)

/-- Claim C7 (amended): when the 2-decimal-rounded deviation of the
percentage sum from 100 exceeds 0.005, that rounded signed difference is
added to the stakeholder selected by the fold — provably the first holder
of the largest percentage in founders-then-investors-then-pool order —
and then every percentage is rounded to two decimals; otherwise the
percentages are only rounded.  (The displayed percentages need not sum to
exactly 100.00; see the counterexample.) -/
theorem reconciliation_mechanism (s : CapTableState) :
    (¬ 1/200 < |toFixed2 (100 - sumPercentages s)| →
      reconcileStep s = roundAllPercentages s) ∧
    (1/200 < |toFixed2 (100 - sumPercentages s)| →
      isLeftmostMax (percList s) (largestIdx (percList s)) ∧
      reconcileStep s =
        roundAllPercentages (addPercentAt s (largestIdx (percList s))
          (toFixed2 (100 - sumPercentages s)))) := by
  constructor
  · intro h
    unfold reconcileStep
    dsimp only
    rw [if_neg h]
  · intro h
    refine ⟨largestIdx_isLeftmostMax _ (by simp [percList]), ?_⟩
    unfold reconcileStep
    dsimp only
    rw [if_pos h]

/-- Witness for C7 at the drifted state (sum 90): the adjustment of 10 goes
to the founder, the first holder of the largest percentage. -/
theorem reconciliation_mechanism_witness :
    (1/200 < |toFixed2 (100 - sumPercentages driftedState)| →
      isLeftmostMax (percList driftedState) (largestIdx (percList driftedState)) ∧
      reconcileStep driftedState =
        roundAllPercentages (addPercentAt driftedState (largestIdx (percList driftedState))
          (toFixed2 (100 - sumPercentages driftedState)))) ∧
    (1/200 < |toFixed2 (100 - sumPercentages driftedState)|) ∧
    reconcileStep driftedState =
      roundAllPercentages (addPercentAt driftedState (largestIdx (percList driftedState))
        (toFixed2 (100 - sumPercentages driftedState))) := by
  have hlt : 1/200 < |toFixed2 (100 - sumPercentages driftedState)| :=
    of_decide_eq_true (by with_unfolding_all rfl)
  exact ⟨(reconciliation_mechanism driftedState).2,
    hlt, ((reconciliation_mechanism driftedState).2 hlt).2⟩

/-- Claim C3: for a convertible note the share price is
`min(capPrice, discountPrice)` when both cap and discount are set (truthy),
the single defined price when exactly one is set, and the round fails with
the SAFE-terms error when neither is set.  `capPrice` divides the cap by
the total share count after the pre-money pool resize; `discountPrice`
multiplies the reference price (last investor's stored share price, else
1.0) by `1 - discount/100`. -/
theorem truthyVal_some_ne (x : ℚ) (h : x ≠ 0) : truthyVal (some x) = some x := by
  simp [truthyVal, h]

theorem safe_best_price_law (s : CapTableState) (r : FundingRound) (st : SAFETerms)
    (htype : r.type = .SAFE) (hst : r.safeTerms = some st) :
    (∀ cap disc, st.valuationCap = some cap → cap ≠ 0 → st.discount = some disc → disc ≠ 0 →
      (processRound s r).map (fun res => res.sharePrice) =
        .ok (min (cap / (esopPreMoneyStep s r).totalShares)
          (assumedPricedRoundPrice s * (1 - disc / 100)))) ∧
    (∀ cap, st.valuationCap = some cap → cap ≠ 0 → truthyVal st.discount = none →
      (processRound s r).map (fun res => res.sharePrice) =
        .ok (cap / (esopPreMoneyStep s r).totalShares)) ∧
    (∀ disc, truthyVal st.valuationCap = none → st.discount = some disc → disc ≠ 0 →
      (processRound s r).map (fun res => res.sharePrice) =
        .ok (assumedPricedRoundPrice s * (1 - disc / 100))) ∧
    (truthyVal st.valuationCap = none → truthyVal st.discount = none →
      processRound s r = .error .safeNeedsCapOrDiscount) := by
  refine ⟨?_, ?_, ?_, ?_⟩
  · intro cap disc hcap hc0 hdisc hd0
    have hp : pricingStep s (esopPreMoneyStep s r).totalShares r =
        .ok (min (cap / (esopPreMoneyStep s r).totalShares)
              (assumedPricedRoundPrice s * (1 - disc / 100)),
            jsRound (r.capitalRaised / min (cap / (esopPreMoneyStep s r).totalShares)
              (assumedPricedRoundPrice s * (1 - disc / 100))),
            min (cap / (esopPreMoneyStep s r).totalShares)
              (assumedPricedRoundPrice s * (1 - disc / 100)) *
              (esopPreMoneyStep s r).totalShares) := by
      simp only [pricingStep, htype, hst, hcap, hdisc, truthyVal_some_ne cap hc0, truthyVal_some_ne disc hd0]
    rw [processRound_eq, restOfRound_ok _ _ _ _ _ _ _ _ hp]
    rfl
  · intro cap hcap hc0 hdisc
    have hp : pricingStep s (esopPreMoneyStep s r).totalShares r =
        .ok (cap / (esopPreMoneyStep s r).totalShares,
            jsRound (r.capitalRaised / (cap / (esopPreMoneyStep s r).totalShares)),
            cap / (esopPreMoneyStep s r).totalShares * (esopPreMoneyStep s r).totalShares) := by
      simp only [pricingStep, htype, hst, hcap, hdisc, truthyVal_some_ne cap hc0]
    rw [processRound_eq, restOfRound_ok _ _ _ _ _ _ _ _ hp]
    rfl
  · intro disc hcap hdisc hd0
    have hp : pricingStep s (esopPreMoneyStep s r).totalShares r =
        .ok (assumedPricedRoundPrice s * (1 - disc / 100),
            jsRound (r.capitalRaised / (assumedPricedRoundPrice s * (1 - disc / 100))),
            assumedPricedRoundPrice s * (1 - disc / 100) * (esopPreMoneyStep s r).totalShares) := by
      simp only [pricingStep, htype, hst, hcap, hdisc, truthyVal_some_ne disc hd0]
    rw [processRound_eq, restOfRound_ok _ _ _ _ _ _ _ _ hp]
    rfl
  · intro hcap hdisc
    have hp : pricingStep s (esopPreMoneyStep s r).totalShares r =
        .error .safeNeedsCapOrDiscount := by
      simp only [pricingStep, htype, hst, hcap, hdisc]
    rw [processRound_eq, restOfRound_error _ _ _ _ _ _ hp]

/-- Witness for C3 on the one-founder state and the cap 6,000,000 /
discount 25% note: the resulting share price is the minimum of the two
candidate prices. -/
theorem safe_best_price_law_witness :
    (processRound oneFounderState capDiscountRound).map (fun res => res.sharePrice) =
      .ok (min ((6000000 : ℚ) / (esopPreMoneyStep oneFounderState capDiscountRound).totalShares)
        (assumedPricedRoundPrice oneFounderState * (1 - 25 / 100))) :=
  (safe_best_price_law oneFounderState capDiscountRound
      { valuationCap := some 6000000, discount := some 25 } rfl rfl).1
    6000000 25 rfl (by norm_num) rfl (by norm_num)

/-- Claim C5 (amended): for a secondary sale whose founder exists, the step
subtracts `sharesSold` from that founder's shares with no clamping (the
result may go negative), records a pending investor whose shares equal
`sharesSold` and whose investment equals `sharesSold × salePrice`, and
leaves `totalShares`, the pool and the investor list unchanged. -/
theorem secondary_sale_step_spec (s : CapTableState) (r : FundingRound)
    (sec : FounderSecondary) (f : FounderShare)
    (hsec : r.founderSecondary = some sec)
    (hfind : s.founders.find? (fun g => g.id == sec.founderId) = some f) :
    (secondaryStep s r).1.totalShares = s.totalShares ∧
    (secondaryStep s r).1.esop = s.esop ∧
    (secondaryStep s r).1.investors = s.investors ∧
    ((secondaryStep s r).1.founders.map (·.shares)).sum =
      (s.founders.map (·.shares)).sum - sec.sharesSold ∧
    (secondaryStep s r).1.founders.find? (fun g => g.id == sec.founderId) =
      some { f with shares := f.shares - sec.sharesSold } ∧
    (secondaryStep s r).2 = some
      { id := "investor-secondary-" ++ sec.founderId
        name := f.name ++ " Secondary Sale"
        shares := sec.sharesSold
        percentage := 0
        investmentAmount := sec.sharesSold * sec.salePrice
        sharePrice := none } := by
  simp only [secondaryStep, hsec, hfind]
  refine ⟨trivial, trivial, trivial, ?_, ?_, trivial⟩
  · rw [updateFirst_map_sum (fun g => g.id == sec.founderId)
      (fun g => { g with shares := g.shares - sec.sharesSold }) (·.shares) s.founders f hfind]
    ring
  · exact updateFirst_find? (fun g => g.id == sec.founderId)
      (fun g => { g with shares := g.shares - sec.sharesSold }) (fun x => rfl) s.founders f hfind

/-- Witness for C5 on the one-founder state: selling 11,000,000 of
10,000,000 shares leaves the founder at -1,000,000 shares and records the
sale proceeds. -/
theorem secondary_sale_step_spec_witness :
    (secondaryStep oneFounderState oversoldRound).1.totalShares = 10000000 ∧
    ((secondaryStep oneFounderState oversoldRound).1.founders.map (·.shares)).sum =
      10000000 - 11000000 ∧
    (secondaryStep oneFounderState oversoldRound).1.founders.find?
      (fun g => g.id == "founder-0") =
      some { id := "founder-0", name := "F1", shares := 10000000 - 11000000, percentage := 100 } ∧
    (secondaryStep oneFounderState oversoldRound).2 = some
      { id := "investor-secondary-founder-0"
        name := "F1 Secondary Sale"
        shares := 11000000
        percentage := 0
        investmentAmount := 11000000 * 1
        sharePrice := none } := by
  have h := secondary_sale_step_spec oneFounderState oversoldRound
    { founderId := "founder-0", sharesSold := 11000000, salePrice := 1 }
    { id := "founder-0", name := "F1", shares := 10000000, percentage := 100 }
    (by with_unfolding_all rfl) (by with_unfolding_all rfl)
  obtain ⟨h1, _, _, h4, h5, h6⟩ := h
  refine ⟨?_, ?_, ?_, ?_⟩
  · rw [h1]; rfl
  · rw [h4]; with_unfolding_all rfl
  · rw [h5]
  · rw [h6]; rfl

/-- Claim C4 (amended): the Round Processor never consults
`postMoneyValuation` — changing it never changes the result; a priced round
is always priced from `preMoneyValuation` (sharePrice = preMoney divided by
the post-resize total), and when `preMoneyValuation` is absent the round
degenerates (NaN-poisoned, modelled as an error) even if a post-money
valuation is given. -/
theorem priced_round_uses_premoney_only :
    (∀ (s : CapTableState) (r : FundingRound) (x : Option ℚ),
      processRound s (setPostMoney r x) = processRound s r) ∧
    (∀ (s : CapTableState) (r : FundingRound) (t : PricedRoundTerms) (pm : ℚ),
      r.type = .PRICED → r.pricedTerms = some t → t.preMoneyValuation = some pm →
      (processRound s r).map (fun res => (res.preMoney, res.sharePrice)) =
        .ok (pm, pm / (esopPreMoneyStep s r).totalShares)) ∧
    (∀ (s : CapTableState) (r : FundingRound) (t : PricedRoundTerms),
      r.type = .PRICED → r.pricedTerms = some t → t.preMoneyValuation = none →
      processRound s r = .error .nanPreMoney) := by
  refine ⟨?_, ?_, ?_⟩
  · intro s r x
    rw [processRound_eq, processRound_eq]
    have h1 : esopPreMoneyStep s (setPostMoney r x) = esopPreMoneyStep s r := rfl
    have h2 : secondaryStep (esopPreMoneyStep s r) (setPostMoney r x) =
        secondaryStep (esopPreMoneyStep s r) r := rfl
    rw [h1, h2]
    have hp : pricingStep s (esopPreMoneyStep s r).totalShares (setPostMoney r x) =
        pricingStep s (esopPreMoneyStep s r).totalShares r := by
      simp only [pricingStep, setPostMoney]
      cases r.type with
      | SAFE => rfl
      | PRICED =>
        cases hpt : r.pricedTerms with
        | none => rfl
        | some t => simp [hpt]
    unfold restOfRound
    rw [hp]
    cases pricingStep s (esopPreMoneyStep s r).totalShares r with
    | error e => rfl
    | ok v => rfl
  · intro s r t pm htype hpt hpm
    have hp : pricingStep s (esopPreMoneyStep s r).totalShares r =
        .ok (pm / (esopPreMoneyStep s r).totalShares,
          jsRound (r.capitalRaised / (pm / (esopPreMoneyStep s r).totalShares)), pm) := by
      simp only [pricingStep, htype, hpt, hpm]
    rw [processRound_eq, restOfRound_ok _ _ _ _ _ _ _ _ hp]
    rfl
  · intro s r t htype hpt hpm
    have hp : pricingStep s (esopPreMoneyStep s r).totalShares r = .error .nanPreMoney := by
      simp only [pricingStep, htype, hpt, hpm]
    rw [processRound_eq, restOfRound_error _ _ _ _ _ _ hp]

/-- Witness for C4: rewriting the post-money valuation of the 4,000,000
pre-money round changes nothing; the round prices from 4,000,000; the
post-money-only round degenerates. -/
theorem priced_round_uses_premoney_only_witness :
    processRound oneFounderState (setPostMoney preMoneyRound (some 123)) =
      processRound oneFounderState preMoneyRound ∧
    (processRound oneFounderState preMoneyRound).map (fun res => (res.preMoney, res.sharePrice)) =
      .ok (4000000, 4000000 / (esopPreMoneyStep oneFounderState preMoneyRound).totalShares) ∧
    processRound oneFounderState postOnlyRound = .error .nanPreMoney :=
  ⟨priced_round_uses_premoney_only.1 oneFounderState preMoneyRound (some 123),
    priced_round_uses_premoney_only.2.1 oneFounderState preMoneyRound
      { preMoneyValuation := some 4000000, postMoneyValuation := none, sharePrice := 0 }
      4000000 rfl rfl rfl,
    priced_round_uses_premoney_only.2.2 oneFounderState postOnlyRound
      { preMoneyValuation := none, postMoneyValuation := some 5000000, sharePrice := 0 }
      rfl rfl rfl⟩

theorem sum_jsRound_exact (l : List ℚ) (h : ∀ q ∈ l, ∃ n : ℤ, q = (n : ℚ)) :
    (l.map jsRound).sum = l.sum := by
  induction l with
  | nil => rfl
  | cons x xs ih =>
    simp only [List.map_cons, List.sum_cons]
    obtain ⟨n, hn⟩ := h x (List.mem_cons_self x xs)
    rw [hn, jsRound_intCast, ih (fun q hq => h q (List.mem_cons_of_mem x hq))]

/-- Claim C1 (amended): share conservation holds for the initial state
whenever every founder and pool share count is exact (no rounding) and the
percentages sum to exactly 100, and it is preserved by every round that
carries no ESOP adjustment and issues a non-negative number of new shares.
Rounds with an ESOP adjustment (and initial states with rounding residue
or an inexact percentage sum) can break it — see the counterexample. -/
theorem share_conservation_restricted :
    (∀ (founders : List Founder) (esopPools : List ESOPPool),
      (∀ f ∈ founders, ∃ n : ℤ, f.initialEquity / 100 * 10000000 = (n : ℚ)) →
      (∀ p ∈ esopPools, ∃ n : ℤ, p.percentage / 100 * 10000000 = (n : ℚ)) →
      (founders.map (·.initialEquity)).sum + (esopPools.map (·.percentage)).sum = 100 →
      ∀ st, createInitialState founders esopPools = .ok st → conserves st) ∧
    (∀ (s : CapTableState) (r : FundingRound) (res : RoundCalculationResult),
      conserves s → r.esopAdjustment = none → processRound s r = .ok res →
      0 ≤ res.newShares → conserves res.postRoundState) := by
  constructor
  · intro founders esopPools hf hp hsum st hok
    have h0 : ¬ 1/20 <
        |((founders.map (·.initialEquity)).sum + (esopPools.map (·.percentage)).sum) - 100| := by
      rw [hsum]
      norm_num
    unfold createInitialState at hok
    dsimp only at hok
    rw [if_neg h0] at hok
    have hst := Except.ok.inj hok
    subst hst
    unfold conserves
    dsimp only
    simp only [List.map_map, List.map_nil, List.sum_nil, add_zero]
    have hcomp : ((fun x : FounderShare => x.shares) ∘ (fun founder : Founder =>
        ({ id := founder.id, name := founder.name,
           shares := jsRound (founder.initialEquity / 100 * INITIAL_SHARES),
           percentage := founder.initialEquity } : FounderShare))) =
        fun founder : Founder => jsRound (founder.initialEquity / 100 * INITIAL_SHARES) := rfl
    rw [hcomp]
    have hmapF : (founders.map (fun founder => jsRound (founder.initialEquity / 100 * INITIAL_SHARES))) =
        (founders.map (fun founder => founder.initialEquity / 100 * INITIAL_SHARES)).map jsRound := by
      rw [List.map_map]
      rfl
    have hmapP : (esopPools.map (fun pool => jsRound (pool.percentage / 100 * INITIAL_SHARES))) =
        (esopPools.map (fun pool => pool.percentage / 100 * INITIAL_SHARES)).map jsRound := by
      rw [List.map_map]
      rfl
    rw [hmapF, hmapP]
    rw [sum_jsRound_exact _ (by
      intro q hq
      obtain ⟨f, hfm, hfe⟩ := List.mem_map.mp hq
      obtain ⟨n, hn⟩ := hf f hfm
      exact ⟨n, hfe ▸ hn⟩)]
    rw [sum_jsRound_exact _ (by
      intro q hq
      obtain ⟨p, hpm, hpe⟩ := List.mem_map.mp hq
      obtain ⟨n, hn⟩ := hp p hpm
      exact ⟨n, hpe ▸ hn⟩)]
    have hmf : (founders.map (fun founder => founder.initialEquity / 100 * INITIAL_SHARES)).sum =
        (founders.map (·.initialEquity)).sum * 100000 := by
      rw [show (fun founder : Founder => founder.initialEquity / 100 * INITIAL_SHARES) =
          fun founder : Founder => founder.initialEquity * 100000 from by
        funext f
        simp only [INITIAL_SHARES]
        ring]
      exact List.sum_map_mul_right founders (·.initialEquity) 100000
    have hmp : (esopPools.map (fun pool => pool.percentage / 100 * INITIAL_SHARES)).sum =
        (esopPools.map (·.percentage)).sum * 100000 := by
      rw [show (fun pool : ESOPPool => pool.percentage / 100 * INITIAL_SHARES) =
          fun pool : ESOPPool => pool.percentage * 100000 from by
        funext p
        simp only [INITIAL_SHARES]
        ring]
      exact List.sum_map_mul_right esopPools (·.percentage) 100000
    rw [hmf, hmp]
    simp only [INITIAL_SHARES]
    linear_combination (-100000 : ℚ) * hsum
  · intro s r res hc hadj hok hns
    rw [processRound_eq, esopPreMoneyStep_none s r hadj] at hok
    cases hpr : pricingStep s s.totalShares r with
    | error e =>
      rw [restOfRound_error _ _ _ _ _ _ hpr] at hok
      cases hok
    | ok v =>
      obtain ⟨sp, ns, pm⟩ := v
      rw [restOfRound_ok _ _ _ _ _ _ _ _ hpr] at hok
      have hres := Except.ok.inj hok
      subst hres
      have hns' : (0:ℚ) ≤ ns := hns
      obtain ⟨ht, he, hi, hsum2⟩ := secondaryStep_conserving s r
      have hcon : conserves (applyRaiseStep (secondaryStep s r).1 r sp ns (secondaryStep s r).2) := by
        unfold conserves at hc ⊢
        unfold applyRaiseStep
        dsimp only
        simp only [hadj]
        have hesop : (secondaryStep s r).1.esop.shares = s.esop.shares := by rw [he]
        rcases eq_or_lt_of_le hns' with hzero | hpos
        · have hns0 : ns = 0 := hzero.symm
          have hnpos : ¬ 0 < ns := by
            rw [hns0]
            exact lt_irrefl 0
          cases hinv : (secondaryStep s r).2 with
          | none =>
            simp only [hinv] at hsum2
            simp only [hns0, lt_self_iff_false, if_false, hinv, ht, hi, hesop, add_zero]
            linear_combination hc - hsum2
          | some si =>
            simp only [hinv] at hsum2
            simp only [hns0, lt_self_iff_false, if_false, hinv, List.map_append, List.sum_append,
              List.map_cons, List.sum_cons, List.map_nil, List.sum_nil, ht, hi, hesop, add_zero]
            linear_combination hc - hsum2
        · cases hinv : (secondaryStep s r).2 with
          | none =>
            simp only [hinv] at hsum2
            simp only [if_pos hpos, hinv, List.map_append, List.sum_append, List.map_cons,
              List.sum_cons, List.map_nil, List.sum_nil, ht, hi, hesop]
            linear_combination hc - hsum2
          | some si =>
            simp only [hinv] at hsum2
            simp only [if_pos hpos, hinv, List.map_append, List.sum_append, List.map_cons,
              List.sum_cons, List.map_nil, List.sum_nil, ht, hi, hesop]
            linear_combination hc - hsum2
      obtain ⟨a1, a2, a3, a4⟩ := renormalizeStep_shares
        (applyRaiseStep (secondaryStep s r).1 r sp ns (secondaryStep s r).2)
      obtain ⟨b1, b2, b3, b4⟩ := reconcileStep_shares
        (renormalizeStep (applyRaiseStep (secondaryStep s r).1 r sp ns (secondaryStep s r).2))
      exact conserves_of_same_shares _ _ (b1.trans a1) (b2.trans a2) (b3.trans a3)
        (b4.trans a4) hcon

instance (s : CapTableState) : Decidable (conserves s) := by
  unfold conserves
  infer_instance

/-- Witness for C1 (amended): the one-founder initial state conserves
shares, and the thirds round (no ESOP adjustment, 5,000,000 new shares)
preserves conservation. -/
theorem share_conservation_restricted_witness :
    conserves oneFounderState ∧
    (processRound oneFounderState thirdsRound).map
      (fun res => decide (conserves res.postRoundState)) = .ok true := by
  have ha : conserves oneFounderState := by
    refine share_conservation_restricted.1 [mkFounder "founder-0" "F1" 100] [] ?_ ?_ ?_
      oneFounderState (by with_unfolding_all rfl)
    · intro f hfm
      rw [List.mem_singleton.mp hfm]
      exact ⟨10000000, by norm_num [mkFounder]⟩
    · intro p hpm
      exact absurd hpm (List.not_mem_nil p)
    · norm_num [mkFounder]
  refine ⟨ha, ?_⟩
  have hfact : (processRound oneFounderState thirdsRound).map (fun res => res.newShares) =
      .ok 5000000 := by
    with_unfolding_all rfl
  cases hok : processRound oneFounderState thirdsRound with
  | error e =>
    rw [hok] at hfact
    cases hfact
  | ok res =>
    rw [hok] at hfact
    have hns : res.newShares = 5000000 := by
      simpa [Except.map] using hfact
    have hb := share_conservation_restricted.2 oneFounderState thirdsRound res ha rfl hok
      (by rw [hns]; norm_num)
    show Except.ok (decide (conserves res.postRoundState)) = Except.ok true
    rw [decide_eq_true hb]

theorem processRoundSecondaryFirst_eq (s : CapTableState) (r : FundingRound) :
    processRoundSecondaryFirst s r =
      restOfRound s (esopPreMoneyStep (secondaryStep s r).1 r) (secondaryStep s r).2
        (esopPreMoneyStep (secondaryStep s r).1 r).totalShares r := rfl

/-- Claim C2 (amended): the engine performs the pre-money pool resize
before the secondary sale, so the founder rescaling acts on the pre-sale
share count; but on integer data — integer total, integer founder share
counts and an integer sale amount (with a non-empty non-pool side) — the
resize leaves founder share counts unchanged, so the state produced equals
the one the claimed secondary-sale-first order would produce.  On
fractional sale amounts the two orders differ (see the counterexample). -/
theorem rider_order_agrees_on_integer_shares (s : CapTableState) (r : FundingRound)
    (htot : ∃ n : ℤ, s.totalShares = (n : ℚ))
    (hfnd : ∀ f ∈ s.founders, ∃ n : ℤ, f.shares = (n : ℚ))
    (hsold : ∀ sec, r.founderSecondary = some sec → ∃ n : ℤ, sec.sharesSold = (n : ℚ))
    (hne : s.totalShares - s.esop.shares ≠ 0) :
    processRound s r = processRoundSecondaryFirst s r := by
  rw [processRound_eq, processRoundSecondaryFirst_eq]
  cases hadj : r.esopAdjustment with
  | none =>
    rw [esopPreMoneyStep_none s r hadj, esopPreMoneyStep_none (secondaryStep s r).1 r hadj,
      (secondaryStep_conserving s r).1]
  | some adj =>
    by_cases hpre : adj.isPreMoney = true
    · obtain ⟨n, hn⟩ := htot
      have hstep : ∀ u : CapTableState, u.totalShares = s.totalShares → u.esop = s.esop →
          (∀ g ∈ u.founders, ∃ m : ℤ, g.shares = (m : ℚ)) →
          esopPreMoneyStep u r = CapTableState.mk
            (jsRound ((s.totalShares - s.esop.shares) / (1 - adj.newPoolPercentage / 100)))
            u.founders
            (ESOPState.mk
              (s.esop.shares + jsRound ((s.totalShares - s.esop.shares) /
                (1 - adj.newPoolPercentage / 100) - s.totalShares))
              u.esop.percentage)
            u.investors := by
        intro u hut hue huf
        have hXT : jsRound ((s.totalShares - s.esop.shares) /
            (1 - adj.newPoolPercentage / 100) - s.totalShares) =
            jsRound ((s.totalShares - s.esop.shares) / (1 - adj.newPoolPercentage / 100)) -
              s.totalShares := by
          rw [hn]
          exact jsRound_sub_intCast _ n
        have hMM : jsRound ((s.totalShares - s.esop.shares) / (1 - adj.newPoolPercentage / 100)) -
            (s.esop.shares + jsRound ((s.totalShares - s.esop.shares) /
              (1 - adj.newPoolPercentage / 100) - s.totalShares)) =
            s.totalShares - s.esop.shares := by
          rw [hXT]
          ring
        unfold esopPreMoneyStep
        simp only [hadj]
        rw [if_pos hpre]
        rw [hut, hue]
        have hpt : ∀ g ∈ u.founders,
            (fun g : FounderShare => { g with shares := jsRound (g.shares /
              (s.totalShares - s.esop.shares) *
              (jsRound ((s.totalShares - s.esop.shares) / (1 - adj.newPoolPercentage / 100)) -
                (s.esop.shares + jsRound ((s.totalShares - s.esop.shares) /
                  (1 - adj.newPoolPercentage / 100) - s.totalShares)))) }) g = g := by
          intro g hg
          obtain ⟨m, hm⟩ := huf g hg
          dsimp only
          rw [hMM, div_mul_cancel₀ g.shares hne, hm, jsRound_intCast, ← hm]
        congr 1
        rw [List.map_congr_left hpt, List.map_id']
      cases hsec : r.founderSecondary with
      | none =>
        have hs1 : ∀ u : CapTableState, secondaryStep u r = (u, none) := by
          intro u
          simp [secondaryStep, hsec]
        simp only [hs1]
      | some sec =>
        cases hfindS : s.founders.find? (fun g => g.id == sec.founderId) with
        | none =>
          have hfindA : (esopPreMoneyStep s r).founders.find?
              (fun g => g.id == sec.founderId) = none :=
            esopPreMoneyStep_find?_none s r sec.founderId hfindS
          have h1 : secondaryStep (esopPreMoneyStep s r) r = (esopPreMoneyStep s r, none) := by
            simp [secondaryStep, hsec, hfindA]
          have h2 : secondaryStep s r = (s, none) := by
            simp [secondaryStep, hsec, hfindS]
          rw [h1, h2]
        | some f =>
          obtain ⟨mss, hmss⟩ := hsold sec hsec
          have hA := hstep s rfl rfl hfnd
          have hfindA : (esopPreMoneyStep s r).founders.find?
              (fun g => g.id == sec.founderId) = some f := by
            rw [hA]
            exact hfindS
          have h1 : secondaryStep (esopPreMoneyStep s r) r =
              ({ esopPreMoneyStep s r with
                  founders := updateFirst (fun g => g.id == sec.founderId)
                    (fun g => { g with shares := g.shares - sec.sharesSold })
                    (esopPreMoneyStep s r).founders },
               some { id := "investor-secondary-" ++ sec.founderId
                      name := f.name ++ " Secondary Sale"
                      shares := sec.sharesSold
                      percentage := 0
                      investmentAmount := sec.sharesSold * sec.salePrice
                      sharePrice := none }) := by
            simp [secondaryStep, hsec, hfindA]
          have h2 : secondaryStep s r =
              ({ s with
               founders := updateFirst (fun g => g.id == sec.founderId)
                    (fun g => { g with shares := g.shares - sec.sharesSold }) s.founders },
               some { id := "investor-secondary-" ++ sec.founderId
                      name := f.name ++ " Secondary Sale"
                      shares := sec.sharesSold
                      percentage := 0
                      investmentAmount := sec.sharesSold * sec.salePrice
                      sharePrice := none }) := by
            simp [secondaryStep, hsec, hfindS]
          have hfndC : ∀ g ∈ (secondaryStep s r).1.founders, ∃ m : ℤ, g.shares = (m : ℚ) := by
            rw [h2]
            intro g hg
            rcases updateFirst_mem _ _ s.founders g hg with hmem | ⟨y, hy, hgy⟩
            · exact hfnd g hmem
            · obtain ⟨my, hmy⟩ := hfnd y hy
              refine ⟨my - mss, ?_⟩
              rw [hgy]
              dsimp only
              rw [hmy, hmss]
              push_cast
              ring
          have hD := hstep (secondaryStep s r).1 (secondaryStep_conserving s r).1
            ((secondaryStep_conserving s r).2.1) hfndC
          rw [h1, hA, hD, h2]
    · have h1 : esopPreMoneyStep s r = s := by
        unfold esopPreMoneyStep
        simp only [hadj]
        rw [if_neg hpre]
      have h2 : esopPreMoneyStep (secondaryStep s r).1 r = (secondaryStep s r).1 := by
        unfold esopPreMoneyStep
        simp only [hadj]
        rw [if_neg hpre]
      rw [h1, h2, (secondaryStep_conserving s r).1]

/-- Witness for C2: on the one-founder state, a round with a pre-money
resize to 20% and an integer secondary sale of 1,000,000 shares gives the
same result in either rider order. -/
theorem rider_order_agrees_on_integer_shares_witness :
    processRound oneFounderState integerSaleRound =
      processRoundSecondaryFirst oneFounderState integerSaleRound := by
  refine rider_order_agrees_on_integer_shares oneFounderState integerSaleRound
    ⟨10000000, by norm_num [oneFounderState]⟩ ?_ ?_ (by norm_num [oneFounderState])
  · intro f hf
    simp only [oneFounderState] at hf
    rw [List.mem_singleton.mp hf]
    exact ⟨10000000, by norm_num⟩
  · intro sec hsec
    have h : integerSaleRound.founderSecondary =
        some { founderId := "founder-0", sharesSold := 1000000, salePrice := 1 } := rfl
    rw [h] at hsec
    rw [← Option.some.inj hsec]
    exact ⟨1000000, by norm_num⟩
